import Mathlib

/-!
Verification of the upload pipeline of the `b2` package (b2.go) and the
writer registry (the untitled source file of the same package).

The Go code is shallowly embedded:
* bytes are natural numbers, byte buffers are `List Byte`;
* the `crypto/sha1` accumulator is external library code; its state is
  modelled injectively as the list of bytes absorbed so far, so the
  hex digest of a buffer is represented by the buffer's byte content;
* each remote API call is resolved by an explicit environment `Env`
  giving that call's outcome (`Except Err Unit`);
* the handoff channel `bw.ready` is modelled by two booleans
  (`readyAllocated` for a non-nil channel, `readyClosed` for a closed
   one) plus the ghost list `submitted` of chunks successfully sent on
  it, in order; a send completes only when some worker goroutine is in
  its receive loop, otherwise the sender blocks (`blocked` results);
* `sync.Once` values are booleans recording whether `Do` already ran;
* the remote calls issued on the Write/Close control path are recorded
  in the ghost field `trace`.
-/

set_option maxHeartbeats 1000000

namespace B2

/-- Bytes are modelled as natural numbers. -/
abbrev Byte := Nat

/-- Errors coming back from the remote Backblaze API. -/
abbrev Err := String

/-- User metadata, the `info map[string]string` argument. -/
abbrev Info := List (String × String)

/-- The 100MB chunk threshold: the literal `1e8` of b2.go. -/
def threshold : Nat := 100000000

/-- b2.go lines 70-76: a sealed chunk handed to the upload workers.
`sha1` holds the digest of `buf` (modelled as the absorbed bytes). -/
structure Chunk where
  id : Nat
  attempt : Nat
  size : Nat
  sha1 : List Byte
  buf : List Byte
  deriving Repr, DecidableEq

/-- Remote calls issued on the Write/Close control path (ghost trace).
Part uploads happen on worker goroutines and are not in this trace. -/
inductive Call where
  | startLargeFile (name ctype : String)
  | getUploadURL
  | uploadFile (buf : List Byte) (size : Nat) (name ctype : String)
      (sha1 : List Byte) (info : Info)
  | finishLargeFile
  deriving Repr, DecidableEq

/-- Is this call the whole-object (simple path) upload request? -/
def Call.isWholeUpload : Call → Bool
  | .uploadFile .. => true
  | _ => false

/-- Is this call one of the multi-part session calls (start or finish)? -/
def Call.isMultiPart : Call → Bool
  | .startLargeFile .. => true
  | .finishLargeFile => true
  | _ => false

/-- Is this call the start-session call? -/
def Call.isStartSession : Call → Bool
  | .startLargeFile .. => true
  | _ => false

/-- Fate of one spawned worker goroutine (b2.go lines 110-118): it first
calls `GetUploadPartURL`; on error it logs and returns, otherwise it
joins the receive loop. -/
inductive ThreadStart where
  | exited (logged : Err)
  | running
  deriving Repr, DecidableEq

def ThreadStart.isRunning : ThreadStart → Bool
  | .running => true
  | _ => false

/-- b2.go lines 112-116: outcome of a worker's initial
`GetUploadPartURL` call. -/
def threadStart (res : Except Err Unit) : ThreadStart :=
  match res with
  | .error e => .exited e
  | .ok _ => .running

/-- The `Writer` struct of b2.go lines 81-108, plus ghost fields
(`workers`, `submitted`, `trace`) recording observable interactions. -/
@[ext]
structure BW where
  concurrentUploads : Int
  totalRetries : Int
  /-- Field `once sync.Once`: has `once.Do` already run? -/
  onceUsed : Bool
  /-- Field `done sync.Once`: has `done.Do` already run? -/
  doneUsed : Bool
  /-- is `bw.file` non-nil? -/
  fileStarted : Bool
  /-- is `bw.ready` a non-nil channel? -/
  readyAllocated : Bool
  /-- has `bw.ready` been closed? -/
  readyClosed : Bool
  name : String
  ctype : String
  info : Info
  /-- Field `cbuf *bytes.Buffer`: the pending, not yet sealed bytes. -/
  cbuf : List Byte
  cidx : Nat
  /-- Field `chsh hash.Hash`: bytes absorbed by the running sha1 state. -/
  chsh : List Byte
  /-- ghost: startup fate of each spawned worker goroutine. -/
  workers : List ThreadStart
  /-- ghost: chunks successfully sent on `bw.ready`, in send order. -/
  submitted : List Chunk
  /-- ghost: remote calls issued on the Write/Close path, in order. -/
  trace : List Call
  deriving Repr, DecidableEq

/-- Outcomes of the remote calls reachable from the Write/Close path. -/
structure Env where
  startLargeFile : Except Err Unit
  getUploadPartURL : Except Err Unit
  getUploadURL : Except Err Unit
  uploadFile : Except Err Unit
  finishLargeFile : Except Err Unit

/-- The environment in which every remote call succeeds. -/
def envOK : Env :=
  { startLargeFile := .ok (), getUploadPartURL := .ok ()
    getUploadURL := .ok (), uploadFile := .ok (),
    finishLargeFile := .ok () }

/-- The environment in which only the start-session call fails. -/
def envStartFail : Env := { envOK with startLargeFile := .error "start down" }

/-- The environment in which only the per-part endpoint call fails. -/
def envPartFail : Env :=
  { envOK with getUploadPartURL := .error "endpoint down" }

/-- b2.go lines 56-68 (`Bucket.NewWriter`): fresh writer; Go zero
values for the public config fields. -/
def newWriter (name ctype : String) (info : Info) : BW :=
  { concurrentUploads := 0, totalRetries := 0
    onceUsed := false, doneUsed := false, fileStarted := false
    readyAllocated := false, readyClosed := false
    name := name, ctype := ctype, info := info
    cbuf := [], cidx := 0, chsh := []
    workers := [], submitted := [], trace := [] }

/-- b2.go line 66: `bw.w = io.MultiWriter(bw.chsh, bw.cbuf)` — every
byte written goes to the digest and the buffer together. -/
def appendBytes (bw : BW) (p : List Byte) : BW :=
  { bw with chsh := bw.chsh ++ p, cbuf := bw.cbuf ++ p }

/-- Result of `sendChunk`: normal return, error return, or a blocked
channel send that never completes. -/
inductive SendResult where
  | ok (bw : BW)
  | err (e : Err) (bw : BW)
  | blocked (bw : BW)
  deriving Repr, DecidableEq

def SendResult.state : SendResult → BW
  | .ok bw => bw
  | .err _ bw => bw
  | .blocked bw => bw

/-- b2.go lines 183-193: `bw.ready <- chunk{...}` followed by the
buffer/digest/index reset.  The send completes only if the channel is
non-nil and some worker is receiving; otherwise the sender blocks
forever (in particular a send on a nil channel blocks forever). -/
def sendChunkEnqueue (bw : BW) : SendResult :=
  if bw.readyAllocated && bw.workers.any ThreadStart.isRunning then
    SendResult.ok
      { bw with
        submitted := bw.submitted ++
          [{ id := bw.cidx + 1, attempt := 0, size := bw.cbuf.length,
             sha1 := bw.chsh, buf := bw.cbuf }],
        cidx := bw.cidx + 1, chsh := [], cbuf := [] }
  else
    SendResult.blocked bw

/-- b2.go lines 163-194 (`Writer.sendChunk`).  The body of `once.Do`
runs only on the first call; `once` is consumed even when
`StartLargeFile` fails.  On success it clamps `ConcurrentUploads` to at
least 1 and spawns that many worker goroutines, each of which first
resolves `GetUploadPartURL`. -/
def sendChunk (env : Env) (bw : BW) : SendResult :=
  if bw.onceUsed then
    sendChunkEnqueue bw
  else
    let bw1 :=
      { bw with
        onceUsed := true,
        trace := bw.trace ++ [Call.startLargeFile bw.name bw.ctype] }
    match env.startLargeFile with
    | .error e => SendResult.err e bw1
    | .ok _ =>
      let cu : Int :=
        if bw1.concurrentUploads < 1 then 1 else bw1.concurrentUploads
      sendChunkEnqueue
        { bw1 with
          fileStarted := true, readyAllocated := true,
          concurrentUploads := cu,
          workers := List.replicate cu.toNat (threadStart env.getUploadPartURL) }

/-- Result of a `Write` call: normal return of `(n, err)`, or a call
that never returns because a channel send blocked. -/
inductive WriteResult where
  | ret (n : Nat) (e : Option Err) (bw : BW)
  | blocked (bw : BW)
  deriving Repr, DecidableEq

def WriteResult.state : WriteResult → BW
  | .ret _ _ bw => bw
  | .blocked bw => bw

/-- The recursion of b2.go `Write` (line 147, `bw.Write(p[left:])`)
specialised to its actual call sites: after a seal the buffer is empty,
so `left` is exactly `threshold`.  `acc` accumulates the byte count
already consumed. -/
def writeRest (env : Env) (bw : BW) (p : List Byte) (acc : Nat) :
    WriteResult :=
  if p.length < threshold then
    WriteResult.ret (acc + p.length) none (appendBytes bw p)
  else
    match sendChunk env (appendBytes bw (p.take threshold)) with
    | .err e bw2 => WriteResult.ret (acc + threshold) (some e) bw2
    | .blocked bw2 => WriteResult.blocked bw2
    | .ok bw2 => writeRest env bw2 (p.drop threshold) (acc + threshold)
  termination_by p.length
  decreasing_by
    simp only [List.length_drop]
    have ht : 0 < threshold := by decide
    omega

/-- b2.go lines 135-149 (`Writer.Write`): `left := 1e8 - bw.cbuf.Len()`;
a strict `len(p) < left` keeps buffering, otherwise the first `left`
bytes are appended, the chunk is sealed, and the remainder is written
recursively. -/
def write (env : Env) (bw : BW) (p : List Byte) : WriteResult :=
  let left := threshold - bw.cbuf.length
  if p.length < left then
    WriteResult.ret p.length none (appendBytes bw p)
  else
    match sendChunk env (appendBytes bw (p.take left)) with
    | .err e bw2 => WriteResult.ret left (some e) bw2
    | .blocked bw2 => WriteResult.blocked bw2
    | .ok bw2 => writeRest env bw2 (p.drop left) left

/-- b2.go lines 151-161 (`Writer.simpleWriteFile`): get a one-time
upload URL, then upload the whole buffered content with its digest
under the object's final name. -/
def simpleWriteFile (env : Env) (bw : BW) : Option Err × BW :=
  let bw1 := { bw with trace := bw.trace ++ [Call.getUploadURL] }
  match env.getUploadURL with
  | .error e => (some e, bw1)
  | .ok _ =>
    let bw2 := { bw1 with trace := bw1.trace ++
      [Call.uploadFile bw1.cbuf bw1.cbuf.length bw1.name bw1.ctype
        bw1.chsh bw1.info] }
    match env.uploadFile with
    | .error e => (some e, bw2)
    | .ok _ => (none, bw2)

/-- Result of a `Close` call. -/
inductive CloseResult where
  | ret (e : Option Err) (bw : BW)
  | blocked (bw : BW)
  deriving Repr, DecidableEq

def CloseResult.state : CloseResult → BW
  | .ret _ bw => bw
  | .blocked bw => bw

/-- b2.go lines 210-215: `close(bw.ready)`, `bw.wg.Wait()` (the pool
drains), then `FinishLargeFile`. -/
def closeFinish (env : Env) (bw : BW) : CloseResult :=
  let bw1 :=
    { bw with
      readyClosed := true,
      trace := bw.trace ++ [Call.finishLargeFile] }
  match env.finishLargeFile with
  | .error e => CloseResult.ret (some e) bw1
  | .ok _ => CloseResult.ret none bw1

/-- b2.go lines 197-218 (`Writer.Close`): the body runs under
`done.Do`, so it runs at most once; later calls return `nil`
immediately. -/
def close (env : Env) (bw : BW) : CloseResult :=
  if bw.doneUsed then
    CloseResult.ret none bw
  else
    let bw1 := { bw with doneUsed := true }
    if bw1.cidx = 0 then
      CloseResult.ret (simpleWriteFile env bw1).1 (simpleWriteFile env bw1).2
    else if 0 < bw1.cbuf.length then
      match sendChunk env bw1 with
      | .err e bw2 => CloseResult.ret (some e) bw2
      | .blocked bw2 => CloseResult.blocked bw2
      | .ok bw2 => closeFinish env bw2
    else
      closeFinish env bw1

/-- Result of one iteration of a worker's receive loop. -/
inductive WorkerStep where
  | uploaded (c : Chunk)
  | requeued (c : Chunk) (logged : Err)
  deriving Repr, DecidableEq

/-- b2.go lines 119-130: one iteration of the worker loop on a received
chunk.  On upload failure the error is logged, the attempt counter is
incremented, and the same chunk is resubmitted on the shared channel. -/
def workerStep (res : Except Err Unit) (c : Chunk) : WorkerStep :=
  match res with
  | .ok _ => WorkerStep.uploaded c
  | .error e => WorkerStep.requeued { c with attempt := c.attempt + 1 } e

/-- Iterated failure: `k` consecutive failing upload attempts on a chunk, each one an
iteration of the worker loop. -/
def iterateFail (e : Err) : Nat → Chunk → Chunk
  | 0, c => c
  | k + 1, c =>
    match workerStep (.error e) c with
    | .uploaded c2 => c2
    | .requeued c2 _ => iterateFail e k c2

/-- Outcome of a sequence of `Write` calls. -/
inductive RunResult where
  | ok (bw : BW)
  | err (e : Err) (bw : BW)
  | blocked (bw : BW)
  deriving Repr, DecidableEq

/-- Issue a sequence of `Write` calls, stopping at the first error or
blocked call. -/
def writeAll (env : Env) : BW → List (List Byte) → RunResult
  | bw, [] => RunResult.ok bw
  | bw, p :: ps =>
    match write env bw p with
    | .ret _ none bw2 => writeAll env bw2 ps
    | .ret _ (some e) bw2 => RunResult.err e bw2
    | .blocked bw2 => RunResult.blocked bw2

/-- Outcome of a whole writer run: writes then `Close`. -/
inductive RunOut where
  | closed (e : Option Err) (bw : BW)
  | writeFailed (e : Err) (bw : BW)
  | stuck (bw : BW)
  deriving Repr, DecidableEq

def RunOut.state : RunOut → BW
  | .closed _ bw => bw
  | .writeFailed _ bw => bw
  | .stuck bw => bw

/-- A fresh writer, the given sequence of `Write` calls, then `Close`. -/
def run (env : Env) (name ctype : String) (info : Info)
    (ps : List (List Byte)) : RunOut :=
  match writeAll env (newWriter name ctype info) ps with
  | .ok bw =>
    match close env bw with
    | .ret e bw2 => RunOut.closed e bw2
    | .blocked bw2 => RunOut.stuck bw2
  | .err e bw => RunOut.writeFailed e bw
  | .blocked bw => RunOut.stuck bw

/-- The writer states reachable from a fresh writer through `Write` and
`Close` calls, under arbitrary remote-call outcomes. -/
inductive Reachable : BW → Prop where
  | base : ∀ n ct i, Reachable (newWriter n ct i)
  | wr : ∀ env bw p, Reachable bw → Reachable (write env bw p).state
  | cl : ∀ env bw, Reachable bw → Reachable (close env bw).state

/-- Abbreviation for `{ bw with totalRetries := t }`: used to state that the upload
logic never consults `TotalRetries`. -/
def BW.setTR (bw : BW) (t : Int) : BW := { bw with totalRetries := t }

def WriteResult.setTR : WriteResult → Int → WriteResult
  | .ret n e bw, t => .ret n e (bw.setTR t)
  | .blocked bw, t => .blocked (bw.setTR t)

def CloseResult.setTR : CloseResult → Int → CloseResult
  | .ret e bw, t => .ret e (bw.setTR t)
  | .blocked bw, t => .blocked (bw.setTR t)

def SendResult.setTR : SendResult → Int → SendResult
  | .ok bw, t => .ok (bw.setTR t)
  | .err e bw, t => .err e (bw.setTR t)
  | .blocked bw, t => .blocked (bw.setTR t)

/-! ## The writer registry (second source file of the package) -/

/-- The identifying fields of a registered writer (`w.o.b.Name` and
`w.name` in the registry code). -/
structure RWriter where
  bucketName : String
  name : String
  deriving Repr, DecidableEq

/-- The `Client` fields used by the registry: `sWriters` is a Go map,
`nil` until first use, modelled as an optional association list with
distinct keys.  (`slock` guards it; locking is not modelled.) -/
structure Client where
  sWriters : Option (List (String × RWriter))
  deriving Repr, DecidableEq

/-- Registry key `fmt.Sprintf("%s/%s", w.o.b.Name, w.name)`. -/
def writerKey (w : RWriter) : String := w.bucketName ++ "/" ++ w.name

/-- Go map `delete`: drop the entry with the given key. -/
def eraseKey (m : List (String × RWriter)) (k : String) :
    List (String × RWriter) :=
  m.filter (fun kv => kv.1 != k)

/-- Source `Client.addWriter`: create the map on first use, then insert
(replacing any entry under the same key, as a Go map does). -/
def addWriter (c : Client) (w : RWriter) : Client :=
  let m := c.sWriters.getD []
  { sWriters := some ((writerKey w, w) :: eraseKey m (writerKey w)) }

/-- Source `Client.removeWriter`: no-op on a nil map, otherwise delete the
writer's key. -/
def removeWriter (c : Client) (w : RWriter) : Client :=
  match c.sWriters with
  | none => c
  | some m => { sWriters := some (eraseKey m (writerKey w)) }

/-- Go map lookup `c.sWriters[k]`. -/
def findWriter (c : Client) (k : String) : Option RWriter :=
  match c.sWriters with
  | none => none
  | some m => (m.find? (fun kv => kv.1 == k)).map Prod.snd

/-! ## Expected states of a full run (derived forms, proved against the
definitions above) -/

/-- The `i`-th full chunk sealed while writing the stream `s`. -/
def chunkOf (s : List Byte) (i : Nat) : Chunk :=
  { id := i + 1, attempt := 0, size := threshold
    sha1 := (s.drop (threshold * i)).take threshold
    buf := (s.drop (threshold * i)).take threshold }

/-- The writer state after successfully writing the stream `s` (in any
split into Write calls) to a fresh writer, all remote calls
succeeding. -/
def mkState (n ct : String) (i : Info) (s : List Byte) : BW :=
  { concurrentUploads := if threshold ≤ s.length then 1 else 0
    totalRetries := 0
    onceUsed := decide (threshold ≤ s.length)
    doneUsed := false
    fileStarted := decide (threshold ≤ s.length)
    readyAllocated := decide (threshold ≤ s.length)
    readyClosed := false
    name := n, ctype := ct, info := i
    cbuf := s.drop (threshold * (s.length / threshold))
    cidx := s.length / threshold
    chsh := s.drop (threshold * (s.length / threshold))
    workers := if threshold ≤ s.length then [ThreadStart.running] else []
    submitted := (List.range (s.length / threshold)).map (chunkOf s)
    trace := if threshold ≤ s.length then [Call.startLargeFile n ct] else [] }

/-- The writer state after `Close` on `mkState n ct i s`, all remote
calls succeeding. -/
def closedState (n ct : String) (i : Info) (s : List Byte) : BW :=
  if s.length < threshold then
    { mkState n ct i s with
      doneUsed := true,
      trace := [Call.getUploadURL,
        Call.uploadFile s s.length n ct s i] }
  else if s.length % threshold = 0 then
    { mkState n ct i s with
      doneUsed := true, readyClosed := true,
      trace := [Call.startLargeFile n ct, Call.finishLargeFile] }
  else
    { mkState n ct i s with
      doneUsed := true, readyClosed := true,
      cbuf := [], chsh := [], cidx := s.length / threshold + 1,
      submitted := (List.range (s.length / threshold)).map (chunkOf s) ++
        [{ id := s.length / threshold + 1, attempt := 0,
           size := s.length % threshold,
           sha1 := s.drop (threshold * (s.length / threshold)),
           buf := s.drop (threshold * (s.length / threshold)) }],
      trace := [Call.startLargeFile n ct, Call.finishLargeFile] }

/-! ## Helper lemmas about the expected states -/

theorem threshold_pos : 0 < threshold := by decide

theorem mkState_nil (n ct : String) (i : Info) :
    mkState n ct i [] = newWriter n ct i := by
  simp [mkState, newWriter, threshold]

theorem mkState_cbuf_length (n ct : String) (i : Info) (s : List Byte) :
    (mkState n ct i s).cbuf.length = s.length % threshold := by
  simp only [mkState, List.length_drop, threshold]
  omega

theorem chunkOf_append {s p : List Byte} {i : Nat}
    (h : threshold * i + threshold ≤ s.length) :
    chunkOf (s ++ p) i = chunkOf s i := by
  have h1 : threshold * i ≤ s.length := by omega
  have h2 : threshold ≤ (s.drop (threshold * i)).length := by
    simp only [List.length_drop]; omega
  unfold chunkOf
  rw [List.drop_append_of_le_length h1, List.take_append_of_le_length h2]

theorem map_chunkOf_append {s p : List Byte} {k : Nat}
    (h : threshold * k ≤ s.length) :
    (List.range k).map (chunkOf (s ++ p)) = (List.range k).map (chunkOf s) := by
  apply List.map_congr_left
  intro j hj
  rw [List.mem_range] at hj
  apply chunkOf_append
  have : threshold * (j + 1) ≤ threshold * k := Nat.mul_le_mul_left _ hj
  simp only [Nat.mul_add, Nat.mul_one] at this
  omega

theorem appendBytes_mkState {n ct : String} {i : Info} {s p : List Byte}
    (h : s.length % threshold + p.length < threshold) :
    appendBytes (mkState n ct i s) p = mkState n ct i (s ++ p) := by
  have hd : (s.length + p.length) / threshold = s.length / threshold := by
    simp only [threshold] at h ⊢; omega
  have hdl : threshold * (s.length / threshold) ≤ s.length := by
    simp only [threshold]; omega
  have hb : (threshold ≤ s.length + p.length) ↔ (threshold ≤ s.length) := by
    simp only [threshold] at h ⊢; omega
  by_cases hs : threshold ≤ s.length
  · have hs2 : threshold ≤ s.length + p.length := hb.mpr hs
    simp only [appendBytes, mkState, List.length_append, hd, hs, hs2, if_true,
      decide_eq_true_eq, BW.mk.injEq, decide_eq_decide,
      List.drop_append_of_le_length hdl, map_chunkOf_append hdl]
  · have hs2 : ¬ threshold ≤ s.length + p.length := fun hc => hs (hb.mp hc)
    simp only [appendBytes, mkState, List.length_append, hd, hs, hs2, if_false,
      decide_eq_true_eq, BW.mk.injEq, decide_eq_decide,
      List.drop_append_of_le_length hdl, map_chunkOf_append hdl]

theorem sendChunk_fill {n ct : String} {i : Info} {s q : List Byte}
    (hq : s.length % threshold + q.length = threshold) :
    sendChunk envOK (appendBytes (mkState n ct i s) q) =
      SendResult.ok (mkState n ct i (s ++ q)) := by
  have hdl : threshold * (s.length / threshold) ≤ s.length := by
    simp only [threshold]; omega
  have hdiv : (s.length + q.length) / threshold = s.length / threshold + 1 := by
    simp only [threshold] at hq ⊢; omega
  have hbig2 : threshold ≤ s.length + q.length := by
    simp only [threshold] at hq ⊢; omega
  have hdropq : (s ++ q).drop (threshold * (s.length / threshold)) =
      s.drop (threshold * (s.length / threshold)) ++ q :=
    List.drop_append_of_le_length hdl
  have hdroplen : (s.drop (threshold * (s.length / threshold)) ++ q).length
      = threshold := by
    simp only [List.length_append, List.length_drop]
    simp only [threshold] at hq ⊢; omega
  have hchunk : chunkOf (s ++ q) (s.length / threshold) =
      { id := s.length / threshold + 1, attempt := 0, size := threshold,
        sha1 := s.drop (threshold * (s.length / threshold)) ++ q,
        buf := s.drop (threshold * (s.length / threshold)) ++ q } := by
    simp only [chunkOf, hdropq, Chunk.mk.injEq, true_and, and_self,
      List.take_of_length_le (le_of_eq hdroplen)]
  have hcbufnil : (s ++ q).drop (threshold * (s.length / threshold + 1))
      = [] := by
    apply List.drop_eq_nil_of_le
    simp only [List.length_append]
    simp only [threshold] at hq ⊢; omega
  have hsubm : (List.range (s.length / threshold + 1)).map (chunkOf (s ++ q)) =
      (List.range (s.length / threshold)).map (chunkOf s) ++
        [{ id := s.length / threshold + 1, attempt := 0, size := threshold,
           sha1 := s.drop (threshold * (s.length / threshold)) ++ q,
           buf := s.drop (threshold * (s.length / threshold)) ++ q }] := by
    rw [List.range_succ, List.map_append, map_chunkOf_append hdl,
      List.map_singleton, hchunk]
  have hsize : s.length - threshold * (s.length / threshold) + q.length
      = threshold := by
    simp only [threshold] at hq ⊢; omega
  by_cases hs : threshold ≤ s.length
  · simp only [appendBytes, mkState, hs, if_true, decide_True,
      decide_eq_true_eq, sendChunk, sendChunkEnqueue, List.any_cons,
      List.any_nil, ThreadStart.isRunning, Bool.and_true, Bool.or_false,
      if_true, List.length_append, List.length_drop, hdiv, hbig2, hdropq,
      hsubm, hcbufnil, hsize]
  · have hk0 : s.length / threshold = 0 := by
      simp only [threshold] at hs ⊢; omega
    rw [hk0] at hdiv hdropq hdroplen hchunk hcbufnil hsubm hsize hdl
    simp only [Nat.mul_zero, List.drop_zero, Nat.zero_add, List.range_zero,
      List.map_nil, List.nil_append,
      Nat.sub_zero] at hdropq hdroplen hchunk hcbufnil hsubm hsize
    simp only [appendBytes, mkState, hs, if_false, decide_False,
      decide_eq_true_eq, hk0, Nat.mul_zero, List.drop_zero,
      List.range_zero, List.map_nil, List.nil_append, List.append_nil,
      sendChunk, Bool.false_eq_true, if_false, envOK, Nat.zero_add]
    simp only [show ((0 : Int) < 1) = True from by simp, if_true,
      Int.toNat_one, List.replicate_one, threadStart, sendChunkEnqueue,
      List.any_cons, List.any_nil, ThreadStart.isRunning, Bool.and_true,
      Bool.or_false, if_true, List.length_append, hdiv, hbig2, hsize,
      hcbufnil, hsubm]
    have htt : threshold / threshold = 1 := Nat.div_self threshold_pos
    rw [Nat.mul_one] at hcbufnil
    simp only [htt, le_refl, if_true, decide_True, Nat.zero_add,
      List.nil_append, Nat.mul_one, hcbufnil, hsubm]

theorem writeRest_mk (n ct : String) (i : Info) :
    ∀ (m : Nat) (q : List Byte), q.length = m →
      ∀ (u : List Byte) (acc : Nat), u.length % threshold = 0 →
        threshold ≤ u.length →
        writeRest envOK (mkState n ct i u) q acc =
          WriteResult.ret (acc + q.length) none (mkState n ct i (u ++ q)) := by
  intro m
  induction m using Nat.strong_induction_on with
  | _ m ih =>
    intro q hq u acc hu hbig
    rw [writeRest]
    by_cases hlt : q.length < threshold
    · rw [if_pos hlt, appendBytes_mkState (by omega)]
    · rw [if_neg hlt]
      have htk : (q.take threshold).length = threshold := by
        simp only [List.length_take]; omega
      have hfill : u.length % threshold + (q.take threshold).length
          = threshold := by
        rw [htk]; omega
      rw [sendChunk_fill hfill]
      show writeRest envOK (mkState n ct i (u ++ q.take threshold))
          (q.drop threshold) (acc + threshold) =
        WriteResult.ret (acc + q.length) none (mkState n ct i (u ++ q))
      have hrec := ih (q.length - threshold)
        (by have := threshold_pos; omega)
        (q.drop threshold) (by simp only [List.length_drop])
        (u ++ q.take threshold) (acc + threshold)
        (by simp only [List.length_append, htk]
            simp only [threshold] at hu ⊢; omega)
        (by simp only [List.length_append, htk]; omega)
      rw [hrec, List.append_assoc, List.take_append_drop]
      congr 1
      simp only [List.length_drop]
      omega

theorem writeRest_mk' (n ct : String) (i : Info) (u q : List Byte)
    (acc : Nat) (hu : u.length % threshold = 0) (hbig : threshold ≤ u.length) :
    writeRest envOK (mkState n ct i u) q acc =
      WriteResult.ret (acc + q.length) none (mkState n ct i (u ++ q)) :=
  writeRest_mk n ct i q.length q rfl u acc hu hbig

theorem write_mk (n ct : String) (i : Info) (s p : List Byte) :
    write envOK (mkState n ct i s) p =
      WriteResult.ret p.length none (mkState n ct i (s ++ p)) := by
  have hc := mkState_cbuf_length n ct i s
  have hmod : s.length % threshold < threshold :=
    Nat.mod_lt _ threshold_pos
  simp only [write, hc]
  by_cases hlt : p.length < threshold - s.length % threshold
  · rw [if_pos hlt, appendBytes_mkState (by omega)]
  · rw [if_neg hlt]
    have htk : (p.take (threshold - s.length % threshold)).length
        = threshold - s.length % threshold := by
      simp only [List.length_take]; omega
    have hfill : s.length % threshold +
        (p.take (threshold - s.length % threshold)).length = threshold := by
      rw [htk]; omega
    rw [sendChunk_fill hfill]
    show writeRest envOK
        (mkState n ct i (s ++ p.take (threshold - s.length % threshold)))
        (p.drop (threshold - s.length % threshold))
        (threshold - s.length % threshold) =
      WriteResult.ret p.length none (mkState n ct i (s ++ p))
    rw [writeRest_mk' n ct i _ _ _
      (by simp only [List.length_append, htk]
          simp only [threshold] at hmod ⊢; omega)
      (by simp only [List.length_append, htk]
          simp only [threshold]; omega)]
    rw [List.append_assoc, List.take_append_drop]
    congr 1
    simp only [List.length_drop]
    omega

theorem writeAll_mk (n ct : String) (i : Info) :
    ∀ (ps : List (List Byte)) (s : List Byte),
      writeAll envOK (mkState n ct i s) ps =
        RunResult.ok (mkState n ct i (s ++ ps.flatten)) := by
  intro ps
  induction ps with
  | nil =>
    intro s
    simp [writeAll]
  | cons p ps ihp =>
    intro s
    rw [writeAll, write_mk]
    show writeAll envOK (mkState n ct i (s ++ p)) ps =
      RunResult.ok (mkState n ct i (s ++ (p :: ps).flatten))
    rw [ihp (s ++ p), List.flatten_cons, ← List.append_assoc]

theorem close_mk (n ct : String) (i : Info) (s : List Byte) :
    close envOK (mkState n ct i s) =
      CloseResult.ret none (closedState n ct i s) := by
  by_cases hs : s.length < threshold
  · have hk0 : s.length / threshold = 0 := Nat.div_eq_of_lt hs
    have hns : ¬ threshold ≤ s.length := by omega
    simp only [close, mkState, closedState, hns, hs, hk0, if_true, if_false,
      decide_False, Bool.false_eq_true, Nat.mul_zero, List.drop_zero,
      List.range_zero, List.map_nil, simpleWriteFile, envOK,
      List.nil_append, List.append_nil, List.singleton_append]
  · have hbig : threshold ≤ s.length := by omega
    have hk1 : ¬ s.length / threshold = 0 := by
      simp only [threshold] at hbig ⊢; omega
    have hsub : s.length - threshold * (s.length / threshold) =
        s.length % threshold := by
      simp only [threshold]; omega
    by_cases hr : s.length % threshold = 0
    · have hcz : ¬ 0 < s.length - threshold * (s.length / threshold) := by
        omega
      simp only [close, mkState, closedState, hbig, hs, hk1, hr, if_true,
        if_false, decide_True, decide_False, decide_eq_true_eq,
        Bool.false_eq_true, List.length_drop, hcz, hsub,
        lt_self_iff_false, closeFinish, envOK, List.append_nil,
        List.nil_append, List.singleton_append]
    · have hcp : 0 < s.length - threshold * (s.length / threshold) := by
        omega
      have hrp : 0 < s.length % threshold := Nat.pos_of_ne_zero hr
      simp only [close, mkState, closedState, hbig, hs, hk1, hr, if_true,
        if_false, decide_True, decide_False, decide_eq_true_eq,
        Bool.false_eq_true, List.length_drop, hcp, hrp, sendChunk,
        sendChunkEnqueue, List.any_cons, List.any_nil,
        ThreadStart.isRunning, Bool.and_true, Bool.or_false, closeFinish,
        envOK, List.append_nil, List.nil_append, hsub,
        List.singleton_append]

theorem run_eq (n ct : String) (i : Info) (ps : List (List Byte)) :
    run envOK n ct i ps =
      RunOut.closed none (closedState n ct i ps.flatten) := by
  rw [run, ← mkState_nil, writeAll_mk]
  show (match close envOK (mkState n ct i ([] ++ ps.flatten)) with
    | .ret e bw2 => RunOut.closed e bw2
    | .blocked bw2 => RunOut.stuck bw2) =
      RunOut.closed none (closedState n ct i ps.flatten)
  rw [List.nil_append, close_mk]

/-! ## Claim theorems -/

/-- C1 (amended): for every writer, the simple single-request path is
chosen if and only if the total number of bytes written is strictly less
than 100,000,000 at the time Close is called; in that case Close issues
exactly one whole-object upload request, zero multi-part session calls,
and no chunk is ever handed to the worker pool.  (At exactly 100,000,000
bytes the multi-part path is taken.) -/
theorem simple_path_iff (n ct : String) (i : Info) (ps : List (List Byte)) :
    ((run envOK n ct i ps).state.trace.countP Call.isWholeUpload = 1 ∧
      (run envOK n ct i ps).state.trace.countP Call.isMultiPart = 0 ∧
      (run envOK n ct i ps).state.submitted = []) ↔
    ps.flatten.length < threshold := by
  rw [run_eq]
  simp only [RunOut.state]
  generalize ps.flatten = s
  by_cases h1 : s.length < threshold
  · have hk0 : s.length / threshold = 0 := Nat.div_eq_of_lt h1
    simp [closedState, mkState, h1, hk0, List.countP_cons, List.countP_nil,
      Call.isWholeUpload, Call.isMultiPart]
  · by_cases hr : s.length % threshold = 0
    · simp [closedState, mkState, h1, hr, List.countP_cons, List.countP_nil,
        Call.isWholeUpload, Call.isMultiPart]
    · simp [closedState, mkState, h1, hr, List.countP_cons, List.countP_nil,
        Call.isWholeUpload, Call.isMultiPart]

/-- A single Write of a stream of exactly threshold bytes followed by
Close: the multi-part path is taken, with one submitted chunk. -/
theorem run_exact_threshold (n ct : String) (i : Info) (s : List Byte)
    (hlen : s.length = threshold) :
    (run envOK n ct i [s]).state.trace =
      [Call.startLargeFile n ct, Call.finishLargeFile] ∧
    (run envOK n ct i [s]).state.submitted = [chunkOf s 0] := by
  have hfl : List.flatten [s] = s := by simp
  rw [run_eq, hfl]
  simp only [RunOut.state, closedState]
  rw [hlen, if_neg (lt_irrefl threshold), Nat.mod_self, if_pos rfl]
  constructor
  · rfl
  · show (mkState n ct i s).submitted = [chunkOf s 0]
    simp only [mkState]
    rw [hlen, Nat.div_self threshold_pos]
    rfl

/-- C1 counterexample: writing exactly 100,000,000 bytes — so the total
is ≤ the threshold — nevertheless takes the multi-part path: Close
issues no whole-object upload, both multi-part session calls occur, and
a chunk is handed to the worker pool. -/
theorem simple_path_iff_cex :
    (List.flatten [List.replicate threshold (0 : Byte)]).length ≤ threshold ∧
    (run envOK "obj" "text" [] [List.replicate threshold 0]).state.trace.countP
      Call.isWholeUpload = 0 ∧
    (run envOK "obj" "text" [] [List.replicate threshold 0]).state.trace.countP
      Call.isMultiPart = 2 ∧
    (run envOK "obj" "text" [] [List.replicate threshold 0]).state.submitted
      ≠ [] := by
  have key := run_exact_threshold "obj" "text" []
    (List.replicate threshold 0) (by simp)
  refine ⟨by simp, ?_, ?_, ?_⟩
  · rw [key.1]
    rfl
  · rw [key.1]
    rfl
  · rw [key.2]
    simp

/-- C3: for every total input length L strictly above the threshold,
writing L bytes in any split into Write calls and then closing submits
exactly ceil(L / threshold) parts to the worker pool; every part except
the last has exactly threshold bytes and the last has L mod threshold
bytes (or threshold bytes when L is evenly divisible). -/
theorem parts_shape (n ct : String) (i : Info) (ps : List (List Byte))
    (h : threshold < ps.flatten.length) :
    (run envOK n ct i ps).state.submitted.length =
      (ps.flatten.length + threshold - 1) / threshold ∧
    (run envOK n ct i ps).state.submitted.map Chunk.size =
      List.replicate ((ps.flatten.length + threshold - 1) / threshold - 1)
        threshold ++
      [if ps.flatten.length % threshold = 0 then threshold
       else ps.flatten.length % threshold] := by
  rw [run_eq]
  simp only [RunOut.state]
  rw [show ps.flatten = ps.flatten from rfl] at h ⊢
  generalize hgen : ps.flatten = s at h ⊢
  have h1 : ¬ s.length < threshold := by omega
  have hsz : ∀ j, (chunkOf s j).size = threshold := fun j => rfl
  by_cases hr : s.length % threshold = 0
  · have hceil : (s.length + threshold - 1) / threshold =
        s.length / threshold := by
      simp only [threshold] at h hr ⊢; omega
    have hk2 : 1 ≤ s.length / threshold := by
      simp only [threshold] at h ⊢; omega
    simp only [closedState, mkState, h1, hr, if_false, if_true,
      List.length_map, List.length_range, hceil, true_and, List.map_map]
    have hmc : (List.range (s.length / threshold)).map
        (Chunk.size ∘ chunkOf s) =
        List.replicate (s.length / threshold) threshold := by
      rw [show Chunk.size ∘ chunkOf s = fun _ => threshold from
        funext fun j => hsz j]
      rw [List.map_const', List.length_range]
    rw [hmc]
    obtain ⟨m, hm⟩ : ∃ m, s.length / threshold = m + 1 :=
      ⟨s.length / threshold - 1, by omega⟩
    rw [hm, List.replicate_succ', Nat.add_sub_cancel]
  · have hceil : (s.length + threshold - 1) / threshold =
        s.length / threshold + 1 := by
      simp only [threshold] at h hr ⊢; omega
    simp only [closedState, mkState, h1, hr, if_false, List.length_append,
      List.length_map, List.length_range, List.length_singleton, hceil,
      Nat.add_sub_cancel, true_and, List.map_append, List.map_map]
    have hmc : (List.range (s.length / threshold)).map
        (Chunk.size ∘ chunkOf s) =
        List.replicate (s.length / threshold) threshold := by
      rw [show Chunk.size ∘ chunkOf s = fun _ => threshold from
        funext fun j => hsz j]
      rw [List.map_const', List.length_range]
    rw [hmc]
    simp

/-- C3 witness: a concrete run of 100,000,001 bytes yields two parts,
sized threshold and 1. -/
theorem parts_shape_witness :
    threshold < (List.flatten [List.replicate (threshold + 1) (0 : Byte)]).length ∧
    ((run envOK "o" "t" [] [List.replicate (threshold + 1) 0]).state.submitted.length =
      ((List.flatten [List.replicate (threshold + 1) (0 : Byte)]).length +
        threshold - 1) / threshold ∧
     (run envOK "o" "t" [] [List.replicate (threshold + 1) 0]).state.submitted.map
        Chunk.size =
      List.replicate (((List.flatten [List.replicate (threshold + 1) (0 : Byte)]).length +
        threshold - 1) / threshold - 1) threshold ++
      [if (List.flatten [List.replicate (threshold + 1) (0 : Byte)]).length %
          threshold = 0 then threshold
       else (List.flatten [List.replicate (threshold + 1) (0 : Byte)]).length %
          threshold]) :=
  ⟨by simp, parts_shape "o" "t" [] [List.replicate (threshold + 1) 0] (by simp)⟩

/-- C9: for a writer on which no bytes were ever written, Close does not
return early: it issues exactly one whole-object upload request with the
empty payload, size 0, the digest of the empty byte sequence, keyed by
the object's final name — and no multi-part call. -/
theorem close_empty_uploads (n ct : String) (i : Info) :
    run envOK n ct i [] =
      RunOut.closed none
        { newWriter n ct i with
          doneUsed := true,
          trace := [Call.getUploadURL, Call.uploadFile [] 0 n ct [] i] } := by
  rw [run_eq]
  have h0 : (List.flatten ([] : List (List Byte))) = ([] : List Byte) := rfl
  rw [h0]
  simp only [closedState, List.length_nil, threshold_pos, if_pos,
    mkState_nil]

theorem map_id_chunkOf (s : List Byte) (k : Nat) :
    (List.range k).map (fun j => (chunkOf s j).id) = List.range' 1 k := by
  rw [List.range'_eq_map_range]
  apply List.map_congr_left
  intro j _
  simp [chunkOf, Nat.add_comm]

/-- C4: the chunk ids handed to the worker pool are the contiguous
integers 1..n, strictly ascending in submission order; a chunk
resubmitted after a failed part upload keeps its original id, size,
digest and payload — only its attempt counter is incremented. -/
theorem chunk_ids (n ct : String) (i : Info) (ps : List (List Byte)) :
    ((run envOK n ct i ps).state.submitted.map Chunk.id =
      List.range' 1 (run envOK n ct i ps).state.submitted.length) ∧
    (∀ (e : Err) (c : Chunk),
      workerStep (Except.error e) c =
        WorkerStep.requeued { c with attempt := c.attempt + 1 } e) := by
  refine ⟨?_, fun e c => rfl⟩
  rw [run_eq]
  simp only [RunOut.state]
  generalize ps.flatten = s
  by_cases h1 : s.length < threshold
  · have hk0 : s.length / threshold = 0 := Nat.div_eq_of_lt h1
    simp [closedState, mkState, h1, hk0]
  · have hmid : (List.range (s.length / threshold)).map
        (Chunk.id ∘ chunkOf s) = List.range' 1 (s.length / threshold) := by
      rw [show Chunk.id ∘ chunkOf s = fun j => (chunkOf s j).id from rfl]
      exact map_id_chunkOf s _
    by_cases hr : s.length % threshold = 0
    · simp only [closedState, mkState, h1, hr, if_false, if_true,
        List.map_map, List.length_map, List.length_range, hmid]
    · simp only [closedState, mkState, h1, hr, if_false, List.map_append,
        List.map_map, List.length_append, List.length_map,
        List.length_range, List.length_singleton, List.map_cons,
        List.map_nil, hmid]
      rw [List.range'_concat]
      simp [Nat.add_comm]

theorem simpleWriteFile_doneUsed (env : Env) (bw : BW) :
    (simpleWriteFile env bw).2.doneUsed = bw.doneUsed := by
  simp only [simpleWriteFile]
  cases env.getUploadURL <;> cases env.uploadFile <;> rfl

theorem sendChunkEnqueue_doneUsed (bw : BW) :
    (sendChunkEnqueue bw).state.doneUsed = bw.doneUsed := by
  simp only [sendChunkEnqueue]
  split <;> rfl

theorem sendChunk_doneUsed (env : Env) (bw : BW) :
    (sendChunk env bw).state.doneUsed = bw.doneUsed := by
  unfold sendChunk
  split
  · exact sendChunkEnqueue_doneUsed bw
  · cases env.startLargeFile with
    | error e => rfl
    | ok _ => exact sendChunkEnqueue_doneUsed _

theorem closeFinish_doneUsed (env : Env) (bw : BW) :
    (closeFinish env bw).state.doneUsed = bw.doneUsed := by
  simp only [closeFinish]
  cases env.finishLargeFile <;> rfl

theorem close_doneUsed (env : Env) (bw : BW) :
    (close env bw).state.doneUsed = true := by
  unfold close
  split
  · next hdone => simp only [CloseResult.state, hdone]
  · next hdone =>
    dsimp only
    split
    · simp only [CloseResult.state]
      rw [simpleWriteFile_doneUsed]
    · split
      · split
        · next bw2 heq =>
          have hsc := sendChunk_doneUsed env { bw with doneUsed := true }
          rw [heq] at hsc
          simpa using hsc
        · next bw2 heq =>
          have hsc := sendChunk_doneUsed env { bw with doneUsed := true }
          rw [heq] at hsc
          simpa using hsc
        · next bw2 heq =>
          have hsc := sendChunk_doneUsed env { bw with doneUsed := true }
          rw [heq] at hsc
          rw [closeFinish_doneUsed]
          simpa using hsc
      · rw [closeFinish_doneUsed]

/-- C5: Close is idempotent — every Close leaves the finalize guard
consumed, and a Close on a writer whose guard is consumed performs no
remote calls, changes nothing, and returns nil, regardless of what the
first Close returned. -/
theorem close_idempotent (env env2 : Env) (bw : BW) :
    ((close env bw).state.doneUsed = true) ∧
    close env2 (close env bw).state =
      CloseResult.ret none (close env bw).state := by
  have h := close_doneUsed env bw
  refine ⟨h, ?_⟩
  generalize hst : (close env bw).state = st at h ⊢
  unfold close
  rw [if_pos h]

theorem appendBytes_lockstep {bw : BW} (h : bw.chsh = bw.cbuf)
    (p : List Byte) :
    (appendBytes bw p).chsh = (appendBytes bw p).cbuf := by
  simp [appendBytes, h]

theorem sendChunkEnqueue_lockstep {bw : BW} (h : bw.chsh = bw.cbuf) :
    (sendChunkEnqueue bw).state.chsh = (sendChunkEnqueue bw).state.cbuf := by
  by_cases hcond : (bw.readyAllocated && bw.workers.any ThreadStart.isRunning)
      = true
  · unfold sendChunkEnqueue
    rw [if_pos hcond]
    rfl
  · unfold sendChunkEnqueue
    rw [if_neg hcond]
    exact h

theorem sendChunk_lockstep (env : Env) {bw : BW} (h : bw.chsh = bw.cbuf) :
    (sendChunk env bw).state.chsh = (sendChunk env bw).state.cbuf := by
  unfold sendChunk
  split
  · exact sendChunkEnqueue_lockstep h
  · cases env.startLargeFile with
    | error e => exact h
    | ok _ => exact sendChunkEnqueue_lockstep h

theorem writeRest_lockstep (env : Env) :
    ∀ (m : Nat) (p : List Byte), p.length = m → ∀ (bw : BW) (acc : Nat),
      bw.chsh = bw.cbuf →
      (writeRest env bw p acc).state.chsh =
        (writeRest env bw p acc).state.cbuf := by
  intro m
  induction m using Nat.strong_induction_on with
  | _ m ih =>
    intro p hp bw acc h
    rw [writeRest]
    split
    · exact appendBytes_lockstep h p
    · next hlen =>
      have hs := sendChunk_lockstep env
        (appendBytes_lockstep h (p.take threshold))
      split
      · next e bw2 heq =>
        rw [heq] at hs
        simpa [SendResult.state, WriteResult.state] using hs
      · next bw2 heq =>
        rw [heq] at hs
        simpa [SendResult.state, WriteResult.state] using hs
      · next bw2 heq =>
        rw [heq] at hs
        simp only [SendResult.state] at hs
        exact ih (p.length - threshold)
          (by have := threshold_pos; omega)
          (p.drop threshold) (by simp) bw2 (acc + threshold) hs

theorem write_lockstep (env : Env) {bw : BW} (h : bw.chsh = bw.cbuf)
    (p : List Byte) :
    (write env bw p).state.chsh = (write env bw p).state.cbuf := by
  unfold write
  dsimp only
  split
  · exact appendBytes_lockstep h p
  · have hs := sendChunk_lockstep env
      (appendBytes_lockstep h (p.take (threshold - bw.cbuf.length)))
    split
    · next e bw2 heq =>
      rw [heq] at hs
      simpa [SendResult.state, WriteResult.state] using hs
    · next bw2 heq =>
      rw [heq] at hs
      simpa [SendResult.state, WriteResult.state] using hs
    · next bw2 heq =>
      rw [heq] at hs
      simp only [SendResult.state] at hs
      exact writeRest_lockstep env _ _ rfl bw2 _ hs

theorem simpleWriteFile_lockstep (env : Env) {bw : BW}
    (h : bw.chsh = bw.cbuf) :
    (simpleWriteFile env bw).2.chsh = (simpleWriteFile env bw).2.cbuf := by
  unfold simpleWriteFile
  cases env.getUploadURL <;> cases env.uploadFile <;> simpa using h

theorem closeFinish_lockstep (env : Env) {bw : BW} (h : bw.chsh = bw.cbuf) :
    (closeFinish env bw).state.chsh = (closeFinish env bw).state.cbuf := by
  unfold closeFinish
  cases env.finishLargeFile <;> simpa [CloseResult.state] using h

theorem close_lockstep (env : Env) {bw : BW} (h : bw.chsh = bw.cbuf) :
    (close env bw).state.chsh = (close env bw).state.cbuf := by
  unfold close
  split
  · exact h
  · dsimp only
    split
    · simp only [CloseResult.state]
      exact simpleWriteFile_lockstep env h
    · have hs := @sendChunk_lockstep env { bw with doneUsed := true } h
      split
      · split
        · next e bw2 heq =>
          rw [heq] at hs
          simpa [SendResult.state, CloseResult.state] using hs
        · next bw2 heq =>
          rw [heq] at hs
          simpa [SendResult.state, CloseResult.state] using hs
        · next bw2 heq =>
          rw [heq] at hs
          simp only [SendResult.state] at hs
          exact closeFinish_lockstep env hs
      · exact closeFinish_lockstep env h

theorem sendChunkEnqueue_ok_reset {bw bw2 : BW}
    (h : sendChunkEnqueue bw = SendResult.ok bw2) :
    bw2.cbuf = [] ∧ bw2.chsh = [] := by
  unfold sendChunkEnqueue at h
  split at h
  · injection h with h2
    subst h2
    exact ⟨rfl, rfl⟩
  · exact SendResult.noConfusion h

theorem sendChunk_ok_reset {env : Env} {bw bw2 : BW}
    (h : sendChunk env bw = SendResult.ok bw2) :
    bw2.cbuf = [] ∧ bw2.chsh = [] := by
  unfold sendChunk at h
  split at h
  · exact sendChunkEnqueue_ok_reset h
  · cases henv : env.startLargeFile with
    | error e => rw [henv] at h; exact SendResult.noConfusion h
    | ok _ => rw [henv] at h; exact sendChunkEnqueue_ok_reset h

/-- C7: on every reachable writer state the running digest accumulator
holds exactly the bytes currently in the not-yet-sealed buffer; sealing
a chunk resets buffer and digest to empty together, and every write
appends the same bytes to buffer and digest simultaneously. -/
theorem digest_lockstep :
    (∀ bw : BW, Reachable bw → bw.chsh = bw.cbuf) ∧
    (∀ (env : Env) (bw bw2 : BW), sendChunk env bw = SendResult.ok bw2 →
      bw2.cbuf = [] ∧ bw2.chsh = []) ∧
    (∀ (bw : BW) (p : List Byte),
      (appendBytes bw p).cbuf = bw.cbuf ++ p ∧
      (appendBytes bw p).chsh = bw.chsh ++ p) := by
  refine ⟨?_, fun env bw bw2 h => sendChunk_ok_reset h,
    fun bw p => ⟨rfl, rfl⟩⟩
  intro bw h
  induction h with
  | base n ct i => rfl
  | wr env bw p _ ihr => exact write_lockstep env ihr p
  | cl env bw _ ihr => exact close_lockstep env ihr

/-- C7 witness: the invariant instantiated on a reachable state obtained
by one concrete Write on a fresh writer. -/
theorem digest_lockstep_witness :
    (write envOK (newWriter "o" "t" []) [1, 2, 3]).state.chsh =
      (write envOK (newWriter "o" "t" []) [1, 2, 3]).state.cbuf :=
  digest_lockstep.1 _
    (Reachable.wr envOK (newWriter "o" "t" []) [1, 2, 3]
      (Reachable.base "o" "t" []))

theorem sendChunkEnqueue_setTR (bw : BW) (t : Int) :
    sendChunkEnqueue (bw.setTR t) = (sendChunkEnqueue bw).setTR t := by
  obtain ⟨cu, tr, ou, du, fs, ra, rc, nm, ctp, inf, cb, ci, ch, wk, sub, trc⟩ := bw
  simp only [BW.setTR, sendChunkEnqueue]
  split <;> rfl

theorem sendChunk_setTR (env : Env) (bw : BW) (t : Int) :
    sendChunk env (bw.setTR t) = (sendChunk env bw).setTR t := by
  obtain ⟨cu, tr, ou, du, fs, ra, rc, nm, ctp, inf, cb, ci, ch, wk, sub, trc⟩ := bw
  cases ou with
  | true =>
    simp only [BW.setTR, sendChunk, if_true]
    simp only [sendChunkEnqueue]
    split <;> rfl
  | false =>
    cases henv : env.startLargeFile with
    | error e => simp [BW.setTR, sendChunk, henv, SendResult.setTR]
    | ok u =>
      simp only [BW.setTR, sendChunk, henv, Bool.false_eq_true, if_false]
      simp only [sendChunkEnqueue]
      split <;> split <;> rfl

theorem writeRest_setTR (env : Env) :
    ∀ (m : Nat) (p : List Byte), p.length = m →
      ∀ (bw : BW) (acc : Nat) (t : Int),
      writeRest env (bw.setTR t) p acc = (writeRest env bw p acc).setTR t := by
  intro m
  induction m using Nat.strong_induction_on with
  | _ m ih =>
    intro p hp bw acc t
    rw [writeRest, writeRest]
    split
    · rfl
    · next hlen =>
      rw [show appendBytes (bw.setTR t) (p.take threshold)
            = (appendBytes bw (p.take threshold)).setTR t from rfl,
          sendChunk_setTR env (appendBytes bw (p.take threshold)) t]
      cases hres : sendChunk env (appendBytes bw (p.take threshold)) with
      | err e bw2 => rfl
      | blocked bw2 => rfl
      | ok bw2 =>
        exact ih (p.length - threshold)
          (by have := threshold_pos; omega)
          (p.drop threshold) (by simp) bw2 (acc + threshold) t

theorem write_setTR (env : Env) (bw : BW) (p : List Byte) (t : Int) :
    write env (bw.setTR t) p = (write env bw p).setTR t := by
  unfold write
  dsimp only
  rw [show (bw.setTR t).cbuf = bw.cbuf from rfl]
  split
  · rfl
  · rw [show appendBytes (bw.setTR t) (p.take (threshold - bw.cbuf.length))
          = (appendBytes bw (p.take (threshold - bw.cbuf.length))).setTR t
          from rfl,
        sendChunk_setTR env _ t]
    cases hres : sendChunk env
        (appendBytes bw (p.take (threshold - bw.cbuf.length))) with
    | err e bw2 => rfl
    | blocked bw2 => rfl
    | ok bw2 => exact writeRest_setTR env _ _ rfl bw2 _ t

theorem simpleWriteFile_setTR (env : Env) (bw : BW) (t : Int) :
    simpleWriteFile env (bw.setTR t) =
      ((simpleWriteFile env bw).1, (simpleWriteFile env bw).2.setTR t) := by
  unfold simpleWriteFile
  cases env.getUploadURL <;> cases env.uploadFile <;> rfl

theorem closeFinish_setTR (env : Env) (bw : BW) (t : Int) :
    closeFinish env (bw.setTR t) = (closeFinish env bw).setTR t := by
  unfold closeFinish
  cases env.finishLargeFile <;> rfl

theorem close_branch1_setTR (env : Env) (x : BW) (t : Int) :
    CloseResult.ret (simpleWriteFile env (x.setTR t)).1
        (simpleWriteFile env (x.setTR t)).2 =
      (CloseResult.ret (simpleWriteFile env x).1
        (simpleWriteFile env x).2).setTR t := by
  rw [simpleWriteFile_setTR]
  rfl

theorem close_branch2_setTR (env : Env) (x : BW) (t : Int) :
    (match sendChunk env (x.setTR t) with
     | SendResult.err e bw2 => CloseResult.ret (some e) bw2
     | SendResult.blocked bw2 => CloseResult.blocked bw2
     | SendResult.ok bw2 => closeFinish env bw2) =
    (match sendChunk env x with
     | SendResult.err e bw2 => CloseResult.ret (some e) bw2
     | SendResult.blocked bw2 => CloseResult.blocked bw2
     | SendResult.ok bw2 => closeFinish env bw2).setTR t := by
  rw [sendChunk_setTR]
  cases sendChunk env x with
  | err e bw2 => rfl
  | blocked bw2 => rfl
  | ok bw2 => exact closeFinish_setTR env bw2 t

theorem close_setTR (env : Env) (bw : BW) (t : Int) :
    close env (bw.setTR t) = (close env bw).setTR t := by
  unfold close
  dsimp only
  rw [show (bw.setTR t).doneUsed = bw.doneUsed from rfl,
      show (bw.setTR t).cidx = bw.cidx from rfl,
      show (bw.setTR t).cbuf = bw.cbuf from rfl]
  split
  · rfl
  · split
    · exact close_branch1_setTR env { bw with doneUsed := true } t
    · split
      · exact close_branch2_setTR env { bw with doneUsed := true } t
      · exact closeFinish_setTR env { bw with doneUsed := true } t


/-- C6: a failed part upload never surfaces the error to the caller of
Write or Close: the worker logs it and resubmits the chunk on the shared
channel with only the attempt counter incremented, and this repeats
without bound (after any k consecutive failures the chunk is requeued
with attempt increased by k and everything else unchanged); the
`TotalRetries` configuration field is never consulted anywhere in the
upload logic — Write, sendChunk and Close all commute with arbitrary
changes to it. -/
theorem retry_unbounded_no_total_retries :
    (∀ (e : Err) (c : Chunk),
      workerStep (Except.error e) c =
        WorkerStep.requeued { c with attempt := c.attempt + 1 } e) ∧
    (∀ (e : Err) (k : Nat) (c : Chunk),
      iterateFail e k c = { c with attempt := c.attempt + k }) ∧
    (∀ (env : Env) (bw : BW) (p : List Byte) (t : Int),
      write env (bw.setTR t) p = (write env bw p).setTR t) ∧
    (∀ (env : Env) (bw : BW) (t : Int),
      sendChunk env (bw.setTR t) = (sendChunk env bw).setTR t) ∧
    (∀ (env : Env) (bw : BW) (t : Int),
      close env (bw.setTR t) = (close env bw).setTR t) := by
  refine ⟨fun e c => rfl, ?_, fun env bw p t => write_setTR env bw p t,
    fun env bw t => sendChunk_setTR env bw t,
    fun env bw t => close_setTR env bw t⟩
  intro e k
  induction k with
  | zero =>
    intro c
    cases c
    simp [iterateFail]
  | succ k ihk =>
    intro c
    rw [iterateFail]
    simp only [workerStep]
    rw [ihk]
    cases c
    simp only [Chunk.mk.injEq, true_and, and_true]
    omega

theorem write_fresh_start_err (env : Env) (e : Err) (n ct : String)
    (i : Info) (p : List Byte) (henv : env.startLargeFile = Except.error e)
    (hp : threshold ≤ p.length) :
    write env (newWriter n ct i) p =
      WriteResult.ret threshold (some e)
        { newWriter n ct i with
          cbuf := p.take threshold, chsh := p.take threshold,
          onceUsed := true, trace := [Call.startLargeFile n ct] } := by
  unfold write
  dsimp only
  simp only [newWriter, List.length_nil, Nat.sub_zero]
  rw [if_neg (by omega)]
  unfold sendChunk
  rw [if_neg (by simp [appendBytes]), henv]
  simp [appendBytes]

theorem sendChunk_blocked_of (env : Env) (bw : BW)
    (h1 : bw.onceUsed = true)
    (h2 : (bw.readyAllocated && bw.workers.any ThreadStart.isRunning)
      = false) :
    sendChunk env bw = SendResult.blocked bw := by
  unfold sendChunk
  rw [if_pos h1]
  unfold sendChunkEnqueue
  rw [if_neg (by simp [h2])]

theorem write_fresh_partURL_err (env : Env) (e : Err) (n ct : String)
    (i : Info) (p : List Byte)
    (hstart : env.startLargeFile = Except.ok ())
    (hpart : env.getUploadPartURL = Except.error e)
    (hp : threshold ≤ p.length) :
    ∃ st : BW, write env (newWriter n ct i) p = WriteResult.blocked st := by
  refine ⟨{ newWriter n ct i with
      cbuf := p.take threshold, chsh := p.take threshold,
      onceUsed := true, fileStarted := true, readyAllocated := true,
      concurrentUploads := 1, workers := [ThreadStart.exited e],
      trace := [Call.startLargeFile n ct] }, ?_⟩
  unfold write
  dsimp only
  simp only [newWriter, List.length_nil, Nat.sub_zero]
  rw [if_neg (by omega)]
  unfold sendChunk
  rw [if_neg (by simp [appendBytes]), hstart]
  simp [appendBytes, sendChunkEnqueue, hpart, threadStart,
    ThreadStart.isRunning, List.replicate_one]

/-- C8: when the first buffer overflow's start-session call fails, the
triggering Write returns that error, but the one-time guard is
nonetheless consumed: the returned state has `once` used, exactly one
start-session call in its trace, and a nil (never-allocated) channel;
and on any writer in that condition a chunk seal makes no further
start-session attempt and blocks forever, leaving the state unchanged. -/
theorem start_failure_poisons (env : Env) (e : Err) (n ct : String)
    (i : Info) (p : List Byte) (henv : env.startLargeFile = Except.error e)
    (hp : threshold ≤ p.length) :
    (write env (newWriter n ct i) p =
      WriteResult.ret threshold (some e)
        { newWriter n ct i with
          cbuf := p.take threshold, chsh := p.take threshold,
          onceUsed := true, trace := [Call.startLargeFile n ct] }) ∧
    (∀ bw : BW, bw.onceUsed = true → bw.readyAllocated = false →
      sendChunk env bw = SendResult.blocked bw) := by
  refine ⟨write_fresh_start_err env e n ct i p henv hp, ?_⟩
  intro bw h1 h2
  exact sendChunk_blocked_of env bw h1 (by simp [h2])

/-- C8 witness: the theorem applied to a concrete failing environment
and a concrete write of exactly threshold bytes. -/
theorem start_failure_poisons_witness :
    envStartFail.startLargeFile = Except.error "start down" ∧
    threshold ≤ (List.replicate threshold (0 : Byte)).length ∧
    ((write envStartFail (newWriter "o" "t" [])
        (List.replicate threshold 0) =
      WriteResult.ret threshold (some "start down")
        { newWriter "o" "t" [] with
          cbuf := (List.replicate threshold (0 : Byte)).take threshold,
          chsh := (List.replicate threshold (0 : Byte)).take threshold,
          onceUsed := true,
          trace := [Call.startLargeFile "o" "t"] }) ∧
    (∀ bw : BW, bw.onceUsed = true → bw.readyAllocated = false →
      sendChunk envStartFail bw = SendResult.blocked bw)) :=
  ⟨rfl, by simp,
    start_failure_poisons envStartFail "start down" "o" "t" []
      (List.replicate threshold 0) rfl (by simp)⟩

/-- C2 (amended): an error from the start-session call is surfaced as
the return value of the Write that triggered it, with exactly one
start-session call issued (no retry); an error from the finish-session
call is surfaced as the return value of Close, with exactly one
finish-session call appended (no retry); but an error obtaining a
per-part upload endpoint is never surfaced to Write or Close: the
worker only logs it and exits, and a chunk seal with no running worker
blocks instead of returning the error. -/
theorem session_errors_surfaced :
    (∀ (env : Env) (e : Err) (n ct : String) (i : Info) (p : List Byte),
      env.startLargeFile = Except.error e → threshold ≤ p.length →
      ∃ st : BW, write env (newWriter n ct i) p =
          WriteResult.ret threshold (some e) st ∧
        st.trace.countP Call.isStartSession = 1) ∧
    (∀ (env : Env) (e : Err) (bw : BW),
      env.finishLargeFile = Except.error e → bw.doneUsed = false →
      bw.cidx ≠ 0 → bw.cbuf = [] →
      close env bw = CloseResult.ret (some e)
        { bw with
          doneUsed := true, readyClosed := true,
          trace := bw.trace ++ [Call.finishLargeFile] }) ∧
    (∀ e : Err, threadStart (Except.error e) = ThreadStart.exited e) ∧
    (∀ (env : Env) (bw : BW), bw.onceUsed = true →
      bw.workers.any ThreadStart.isRunning = false →
      sendChunk env bw = SendResult.blocked bw) := by
  refine ⟨?_, ?_, fun e => rfl, ?_⟩
  · intro env e n ct i p henv hp
    exact ⟨_, write_fresh_start_err env e n ct i p henv hp, by rfl⟩
  · intro env e bw henv hdone hcidx hcbuf
    unfold close
    rw [if_neg (by simp [hdone])]
    dsimp only
    rw [if_neg (by simpa using hcidx),
        if_neg (by simp [hcbuf])]
    unfold closeFinish
    rw [henv]
  · intro env bw h1 h2
    exact sendChunk_blocked_of env bw h1 (by simp [h2])

/-- C2 counterexample: with only the per-part endpoint call failing,
the Write that triggers worker startup never returns at all — in
particular the endpoint error is not surfaced as the return value of
the triggering Write, contrary to the claim. -/
theorem session_errors_surfaced_cex :
    ¬ ∃ (k : Nat) (st : BW),
      write envPartFail (newWriter "o" "t" [])
          (List.replicate threshold 0) =
        WriteResult.ret k (some "endpoint down") st := by
  obtain ⟨st, hst⟩ := write_fresh_partURL_err envPartFail "endpoint down"
    "o" "t" [] (List.replicate threshold 0) rfl rfl (by simp)
  rintro ⟨k, st2, h2⟩
  rw [hst] at h2
  exact WriteResult.noConfusion h2

/-- C2 witness: the start-session conjunct applied to a concrete
environment and input, plus the worker-exit conjunct at a concrete
error. -/
theorem session_errors_surfaced_witness :
    (∃ st : BW, write envStartFail (newWriter "o" "t" [])
        (List.replicate threshold 0) =
          WriteResult.ret threshold (some "start down") st ∧
        st.trace.countP Call.isStartSession = 1) ∧
    threadStart (Except.error "endpoint down") =
      ThreadStart.exited "endpoint down" :=
  ⟨session_errors_surfaced.1 envStartFail "start down" "o" "t" []
    (List.replicate threshold 0) rfl (by simp),
   session_errors_surfaced.2.2.1 "endpoint down"⟩

theorem find?_eraseKey (m : List (String × RWriter)) (k : String) :
    (eraseKey m k).find? (fun kv => kv.1 == k) = none := by
  rw [List.find?_eq_none]
  intro kv hkv
  rw [eraseKey, List.mem_filter] at hkv
  simpa using hkv.2

/-- C10: `addWriter` inserts an entry keyed by container-name + "/" +
object-name, creating the underlying table lazily on first use;
`removeWriter` deletes that entry when present and leaves the registry
unchanged otherwise; and a remove after an add for the same writer
leaves no entry under that key. -/
theorem registry_add_remove (c : Client) (w : RWriter) :
    ((addWriter c w).sWriters.isSome = true) ∧
    (findWriter (addWriter c w) (writerKey w) = some w) ∧
    (findWriter c (writerKey w) = none → removeWriter c w = c) ∧
    (findWriter (removeWriter (addWriter c w) w) (writerKey w) = none) := by
  refine ⟨rfl, ?_, ?_, ?_⟩
  · simp [findWriter, addWriter, List.find?_cons_of_pos]
  · intro hnone
    cases hc : c.sWriters with
    | none =>
      unfold removeWriter
      rw [hc]
    | some m =>
      unfold findWriter at hnone
      rw [hc] at hnone
      dsimp only at hnone
      have hfind : m.find? (fun kv => kv.1 == writerKey w) = none := by
        cases hf : m.find? (fun kv => kv.1 == writerKey w) with
        | none => rfl
        | some kv =>
          rw [hf] at hnone
          simp at hnone
      have hall := List.find?_eq_none.mp hfind
      have herase : eraseKey m (writerKey w) = m := by
        rw [eraseKey, List.filter_eq_self]
        intro kv hkv
        simpa using hall kv hkv
      unfold removeWriter
      rw [hc]
      dsimp only
      rw [herase]
      cases c
      simp_all
  · unfold removeWriter addWriter
    dsimp only
    unfold findWriter
    dsimp only
    rw [find?_eraseKey]
    rfl

/-- C10 witness: remove after add on an initially nil table leaves no
entry under the writer's key. -/
theorem registry_add_remove_witness :
    findWriter
      (removeWriter (addWriter ⟨none⟩ ⟨"bkt", "obj"⟩) ⟨"bkt", "obj"⟩)
      (writerKey ⟨"bkt", "obj"⟩) = none ∧
    removeWriter (⟨none⟩ : Client) ⟨"bkt", "obj"⟩ = ⟨none⟩ :=
  ⟨(registry_add_remove ⟨none⟩ ⟨"bkt", "obj"⟩).2.2.2,
   (registry_add_remove ⟨none⟩ ⟨"bkt", "obj"⟩).2.2.1 rfl⟩

end B2
